import Mathlib

/-!
Verification of the agent-runtime invocation and deployment scripts.

The development shallowly embeds the client-side logic of
`src/agentcore/invoke_agent.py` (content-type dispatch, event-stream line
decoding, JSON body reassembly, the `__main__` flow) and
`src/agentcore/deploy_to_agentcore.py` (`wait_for_status` polling loop).

Python's `json.loads` and `bytes.decode("utf-8")` are external library
functions; they are modelled here by an executable JSON parser (`jsonParse`)
and a strict UTF-8 decoder (`utf8Decode`).  All text is handled as `List Char`
so that every definition evaluates by kernel reduction.
-/

/-- The result of Python's `json.loads`: a JSON value.  Numbers are kept as a
decimal mantissa/exponent pair (`m * 10 ^ e10`); objects are association lists
in source order (duplicate keys are resolved last-wins, as in a Python dict). -/
inductive Json where
  | null
  | bool (b : Bool)
  | num (m : Int) (e10 : Int)
  | str (s : String)
  | arr (xs : List Json)
  | obj (fs : List (String × Json))

/-- Python truthiness (`if value:`) of a decoded JSON value: `None`, `False`,
zero, the empty string, the empty list and the empty dict are falsy. -/
def Json.truthy : Json → Bool
  | .null => false
  | .bool b => b
  | .num m _ => !(m == 0)
  | .str s => !(s == "")
  | .arr xs => !xs.isEmpty
  | .obj fs => !fs.isEmpty

/-- Whether a JSON value is an object (Python `isinstance(data, dict)`). -/
def Json.isObj : Json → Bool
  | .obj _ => true
  | _ => false

/-- Dictionary lookup with Python semantics on an association list that may
hold duplicate keys: the last binding wins, `none` when the key is absent. -/
def getLast (fs : List (String × Json)) (k : String) : Option Json :=
  fs.foldl (fun acc p => if p.1 = k then some p.2 else acc) none

/-- Python `dict.get(k, d)`: lookup with a default. -/
def getLastD (fs : List (String × Json)) (k : String) (d : Json) : Json :=
  (getLast fs k).getD d

/-! ## JSON parser (model of `json.loads`)

A strict, executable JSON parser over `List Char`, fuelled so that every
definition is structurally recursive and evaluates in the kernel. -/

/-- Skip JSON whitespace. -/
def skipWs : List Char → List Char
  | [] => []
  | c :: cs => if c = ' ' || c = '\t' || c = '\n' || c = '\r' then skipWs cs else c :: cs

/-- Value of one hexadecimal digit. -/
def hexVal (c : Char) : Option Nat :=
  if 48 ≤ c.toNat && c.toNat ≤ 57 then some (c.toNat - 48)
  else if 97 ≤ c.toNat && c.toNat ≤ 102 then some (c.toNat - 87)
  else if 65 ≤ c.toNat && c.toNat ≤ 70 then some (c.toNat - 55)
  else none

/-- Value of a four-hex-digit escape. -/
def hex4 (a b c d : Char) : Option Nat := do
  let x ← hexVal a
  let y ← hexVal b
  let z ← hexVal c
  let w ← hexVal d
  pure (((x * 16 + y) * 16 + z) * 16 + w)

/-- Translation of a single-character escape (`\"`, `\\`, `\/`, `\b`, `\f`,
`\n`, `\r`, `\t`). -/
def escChar (e : Char) : Option Char :=
  if e = '"' then some '"'
  else if e = '\\' then some '\\'
  else if e = '/' then some '/'
  else if e = 'b' then some (Char.ofNat 8)
  else if e = 'f' then some (Char.ofNat 12)
  else if e = 'n' then some '\n'
  else if e = 'r' then some '\r'
  else if e = 't' then some '\t'
  else none

/-- Parse the body of a JSON string literal (the opening quote already
consumed); returns the content and the remaining input.  `\uXXXX` escapes
combine surrogate pairs; lone surrogates and raw control characters are
rejected. -/
def parseStringAux : List Char → Option (List Char × List Char)
  | [] => none
  | '"' :: rest => some ([], rest)
  | '\\' :: 'u' :: h1 :: h2 :: h3 :: h4 :: rest => do
      let n ← hex4 h1 h2 h3 h4
      if 55296 ≤ n && n < 56320 then
        match rest with
        | '\\' :: 'u' :: g1 :: g2 :: g3 :: g4 :: rest2 => do
            let m ← hex4 g1 g2 g3 g4
            if 56320 ≤ m && m < 57344 then
              (parseStringAux rest2).map
                (fun p => (Char.ofNat (65536 + (n - 55296) * 1024 + (m - 56320)) :: p.1, p.2))
            else none
        | _ => none
      else if 56320 ≤ n && n < 57344 then none
      else (parseStringAux rest).map (fun p => (Char.ofNat n :: p.1, p.2))
  | '\\' :: e :: rest => do
      let c ← escChar e
      (parseStringAux rest).map (fun p => (c :: p.1, p.2))
  | c :: rest =>
      if c.toNat < 32 then none
      else (parseStringAux rest).map (fun p => (c :: p.1, p.2))

/-- Take a maximal run of decimal digits, returning their values. -/
def takeDigits : List Char → List Nat × List Char
  | [] => ([], [])
  | c :: cs =>
      if 48 ≤ c.toNat && c.toNat ≤ 57 then
        let p := takeDigits cs
        ((c.toNat - 48) :: p.1, p.2)
      else ([], c :: cs)

/-- Combine decimal digit values into a natural number. -/
def natOfDigits (ds : List Nat) : Nat := ds.foldl (fun a d => a * 10 + d) 0

/-- Parse a JSON number token (integer part, optional fraction, optional
exponent; no leading zeros, no leading `+`). -/
def parseNumber (cs : List Char) : Option (Json × List Char) :=
  let (neg, cs1) :=
    match cs with
    | '-' :: r => (true, r)
    | _ => (false, cs)
  let (ds, cs2) := takeDigits cs1
  if ds.isEmpty then none
  else if 2 ≤ ds.length && ds.headI = 0 then none
  else
    let (fs, cs3) :=
      match cs2 with
      | '.' :: r =>
          let p := takeDigits r
          if p.1.isEmpty then ([], '.' :: r) else (p.1, p.2)
      | _ => ([], cs2)
    match cs2, fs with
    | '.' :: _, [] => none
    | _, _ =>
      let mantissa : Int :=
        (if neg then -1 else 1) * (natOfDigits (ds ++ fs) : Int)
      let baseExp : Int := -(fs.length : Int)
      match cs3 with
      | 'e' :: r => parseExpTail mantissa baseExp r
      | 'E' :: r => parseExpTail mantissa baseExp r
      | _ => some (.num mantissa baseExp, cs3)
where
  /-- Parse the exponent digits after `e`/`E` and an optional sign. -/
  parseExpTail (mantissa : Int) (baseExp : Int) (r : List Char) :
      Option (Json × List Char) :=
    let (esign, r1) :=
      match r with
      | '-' :: r2 => ((-1 : Int), r2)
      | '+' :: r2 => ((1 : Int), r2)
      | _ => ((1 : Int), r)
    let (es, r2) := takeDigits r1
    if es.isEmpty then none
    else some (.num mantissa (baseExp + esign * (natOfDigits es : Int)), r2)

mutual

/-- Parse one JSON value, returning it and the remaining input. -/
def parseValue : Nat → List Char → Option (Json × List Char)
  | 0, _ => none
  | f + 1, cs =>
    match skipWs cs with
    | 'n' :: 'u' :: 'l' :: 'l' :: r => some (.null, r)
    | 't' :: 'r' :: 'u' :: 'e' :: r => some (.bool true, r)
    | 'f' :: 'a' :: 'l' :: 's' :: 'e' :: r => some (.bool false, r)
    | '"' :: r => (parseStringAux r).map (fun p => (.str ⟨p.1⟩, p.2))
    | '[' :: r =>
        (match skipWs r with
         | ']' :: r2 => some (.arr [], r2)
         | r2 => (parseElems f r2).map (fun p => (.arr p.1, p.2)))
    | '\x7b' :: r =>
        (match skipWs r with
         | '\x7d' :: r2 => some (.obj [], r2)
         | r2 => (parseMembers f r2).map (fun p => (.obj p.1, p.2)))
    | c :: r =>
        if c = '-' || (48 ≤ c.toNat && c.toNat ≤ 57) then parseNumber (c :: r) else none
    | [] => none

/-- Parse the comma-separated elements of a non-empty array, up to `]`. -/
def parseElems : Nat → List Char → Option (List Json × List Char)
  | 0, _ => none
  | f + 1, cs => do
    let (v, r) ← parseValue f cs
    match skipWs r with
    | ',' :: r2 => (parseElems f r2).map (fun p => (v :: p.1, p.2))
    | ']' :: r2 => some ([v], r2)
    | _ => none

/-- Parse the comma-separated members of a non-empty object, up to the
closing brace. -/
def parseMembers : Nat → List Char → Option (List (String × Json) × List Char)
  | 0, _ => none
  | f + 1, cs =>
    match skipWs cs with
    | '"' :: r => do
        let (k, r2) ← parseStringAux r
        match skipWs r2 with
        | ':' :: r3 => do
            let (v, r4) ← parseValue f r3
            (match skipWs r4 with
             | ',' :: r5 => (parseMembers f r5).map (fun p => ((⟨k⟩, v) :: p.1, p.2))
             | '\x7d' :: r5 => some ([(⟨k⟩, v)], r5)
             | _ => none)
        | _ => none
    | _ => none

end

/-- Model of Python `json.loads` over a character list: parse one document,
allowing surrounding whitespace, and require the input to be exhausted. -/
def jsonParse (cs : List Char) : Option Json :=
  match parseValue (cs.length + 1) cs with
  | some (v, r) => if (skipWs r).isEmpty then some v else none
  | none => none

/-! ## Event-stream decoding (`invoke_agent_runtime`, event-stream branch) -/

/-- An exception escaping the per-line decoding in `invoke_agent_runtime`:
either `json.loads` failed on the stripped payload, or `.get` was called on a
truthy non-dict value (Python `AttributeError`). -/
inductive DecodeErr where
  | jsonError (payload : List Char)
  | attributeError

/-- Python `value.get(k, d)`: succeeds with the looked-up value on a dict,
raises `AttributeError` on any other value. -/
def pyGet (j : Json) (k : String) (d : Json) : Except DecodeErr Json :=
  match j with
  | .obj fs => .ok (getLastD fs k d)
  | _ => .error DecodeErr.attributeError

/-- Innermost level of the field walk: `text = delta.get('text', '')`,
`if text: print(text, end='')`. -/
def walkText (delta : Json) : Except DecodeErr (Option Json) :=
  if delta.truthy then do
    let text ← pyGet delta "text" (.str "")
    if text.truthy then pure (some text) else pure none
  else pure none

/-- Middle level of the field walk:
`delta = contentBlockDelta.get('delta', '')`, `if delta:`. -/
def walkDelta (contentBlockDelta : Json) : Except DecodeErr (Option Json) :=
  if contentBlockDelta.truthy then do
    let delta ← pyGet contentBlockDelta "delta" (.str "")
    walkText delta
  else pure none

/-- Outer level of the field walk:
`contentBlockDelta = event.get('contentBlockDelta')`, `if contentBlockDelta:`. -/
def walkEvent (event : Json) : Except DecodeErr (Option Json) :=
  if event.truthy then do
    let contentBlockDelta ← pyGet event "contentBlockDelta" .null
    walkDelta contentBlockDelta
  else pure none

/-- The nested field walk of the event-stream branch
(`data.get('event', '')` under an `isinstance(data, dict)` guard, then the
three `.get` levels, each guarded by Python truthiness); returns the fragment
printed for this event, if any. -/
def extractFragment (data : Json) : Except DecodeErr (Option Json) :=
  match data with
  | .obj fs => walkEvent (getLastD fs "event" (.str ""))
  | _ => pure none

/-- The `data: ` marker checked by `line.startswith("data: ")`. -/
def dataMarker : List Char := "data: ".data

/-- Processing of one UTF-8-decoded line of the event stream: empty lines are
skipped; a line starting with `data: ` is stripped (`line[6:]`), parsed with
`json.loads`, walked for a text fragment, and its payload appended to the
transcript (`content.append(line)`); any other line is ignored.  Returns the
emitted fragment (if any) and the transcript addition (if any). -/
def decodeLine (l : List Char) : Except DecodeErr (Option Json × Option (List Char)) :=
  if l.isEmpty then .ok (none, none)
  else if List.isPrefixOf dataMarker l then
    let payload := l.drop 6
    match jsonParse payload with
    | none => .error (DecodeErr.jsonError payload)
    | some data => (extractFragment data).map (fun frag => (frag, some payload))
  else .ok (none, none)

/-- The observable state of the event-stream loop: the fragments printed so
far (in order) and the accumulated `content` transcript. -/
structure StreamState where
  fragments : List Json
  transcript : List (List Char)

/-- Run the event-stream loop over the remaining lines from a given state;
stops at the first line whose processing raises, propagating the error. -/
def decodeStreamAux : List (List Char) → StreamState → StreamState × Option DecodeErr
  | [], st => (st, none)
  | l :: ls, st =>
    match decodeLine l with
    | .error e => (st, some e)
    | .ok (frag, tr) =>
        decodeStreamAux ls ⟨st.fragments ++ frag.toList, st.transcript ++ tr.toList⟩

/-- The event-stream branch of `invoke_agent_runtime`: fold the per-line
decoder over the UTF-8-decoded lines of the response body. -/
def decodeStream (lines : List (List Char)) : StreamState × Option DecodeErr :=
  decodeStreamAux lines ⟨[], []⟩

/-! ## UTF-8 decoding and the JSON branch -/

/-- Whether a byte is a UTF-8 continuation byte (`10xxxxxx`). -/
def utf8Cont (b : Nat) : Bool := 128 ≤ b && b < 192

/-- Length of the UTF-8 sequence introduced by a lead byte; `none` for bytes
that cannot start a sequence (continuation bytes, overlong leads `C0`/`C1`,
and `F5`-`FF`). -/
def utf8SeqLen (b0 : Nat) : Option Nat :=
  if b0 < 128 then some 1
  else if b0 < 194 then none
  else if b0 < 224 then some 2
  else if b0 < 240 then some 3
  else if b0 < 245 then some 4
  else none

/-- Decode one complete UTF-8 sequence to its code point, rejecting overlong
forms, surrogates and code points beyond `U+10FFFF`. -/
def utf8DecodeSeq : List Nat → Option Nat
  | [b0] => if b0 < 128 then some b0 else none
  | [b0, b1] =>
      if utf8Cont b1 then some ((b0 - 192) * 64 + (b1 - 128)) else none
  | [b0, b1, b2] =>
      if utf8Cont b1 && utf8Cont b2 then
        let cp := ((b0 - 224) * 64 + (b1 - 128)) * 64 + (b2 - 128)
        if 2048 ≤ cp && !(55296 ≤ cp && cp < 57344) then some cp else none
      else none
  | [b0, b1, b2, b3] =>
      if utf8Cont b1 && utf8Cont b2 && utf8Cont b3 then
        let cp := (((b0 - 240) * 64 + (b1 - 128)) * 64 + (b2 - 128)) * 64 + (b3 - 128)
        if 65536 ≤ cp && cp < 1114112 then some cp else none
      else none
  | _ => none

/-- Consume one code point from the front of a byte list. -/
def utf8Step (bs : List Nat) : Option (Nat × List Nat) :=
  match bs with
  | [] => none
  | b0 :: _ =>
    match utf8SeqLen b0 with
    | none => none
    | some n =>
      if n ≤ bs.length then
        match utf8DecodeSeq (bs.take n) with
        | some cp => some (cp, bs.drop n)
        | none => none
      else none

/-- Fuelled loop of the UTF-8 decoder. -/
def utf8DecodeAux : Nat → List Nat → Option (List Char)
  | _, [] => some []
  | 0, _ :: _ => none
  | f + 1, b :: bs =>
    match utf8Step (b :: bs) with
    | some (cp, r) => (utf8DecodeAux f r).map (fun s => Char.ofNat cp :: s)
    | none => none

/-- Model of Python `bytes.decode("utf-8")` (strict): decode a byte list to
characters, failing on any invalid or incomplete sequence. -/
def utf8Decode (bs : List Nat) : Option (List Char) :=
  utf8DecodeAux bs.length bs

/-- An exception escaping the JSON branch: a `UnicodeDecodeError` from
decoding one chunk, or a JSON error from parsing the joined text. -/
inductive JsonBranchErr where
  | unicodeDecodeError
  | jsonDecodeError (text : List Char)

/-- The per-chunk decoding loop of the JSON branch
(`content.append(chunk.decode('utf-8'))`): each byte chunk is decoded
individually; the first undecodable chunk raises. -/
def decodeChunks : List (List Nat) → Option (List (List Char))
  | [] => some []
  | c :: cs =>
    match utf8Decode c with
    | none => none
    | some p => (decodeChunks cs).map (fun ps => p :: ps)

/-- The JSON branch of `invoke_agent_runtime`: decode each chunk, join the
decoded strings, and parse the result with `json.loads`. -/
def jsonBranch (chunks : List (List Nat)) : Except JsonBranchErr Json :=
  match decodeChunks chunks with
  | none => .error JsonBranchErr.unicodeDecodeError
  | some parts =>
    match jsonParse parts.flatten with
    | none => .error (JsonBranchErr.jsonDecodeError parts.flatten)
    | some v => .ok v

/-- Modelled from the spec: the one-step reference decoding the spec describes
for the JSON branch — concatenate all byte chunks first, UTF-8-decode the
concatenation once, and parse it as one JSON document. -/
def jsonOneStep (bs : List Nat) : Except JsonBranchErr Json :=
  match utf8Decode bs with
  | none => .error JsonBranchErr.unicodeDecodeError
  | some s =>
    match jsonParse s with
    | none => .error (JsonBranchErr.jsonDecodeError s)
    | some v => .ok v

/-! ## Content-type dispatch (`invoke_agent_runtime`, top level) -/

/-- Python substring containment (`needle in hay`). -/
def containsSub (needle hay : List Char) : Bool :=
  hay.tails.any (fun t => List.isPrefixOf needle t)

/-- The event-stream content-type marker. -/
def eventStreamMarker : List Char := "text/event-stream".data

/-- The decoding strategy selected from the declared content-type. -/
inductive Strategy where
  | eventStream
  | jsonReassembly
  | fallback
deriving DecidableEq

/-- The content-type dispatch of `invoke_agent_runtime`:
`"text/event-stream" in response.get("contentType", "")`, then
`response.get("contentType") == "application/json"`, else the fallback. -/
def dispatch (contentType : Option String) : Strategy :=
  if containsSub eventStreamMarker (contentType.getD "").data then .eventStream
  else if contentType = some "application/json" then .jsonReassembly
  else .fallback

/-- The response object handed to `invoke_agent_runtime`: the declared
content-type (absent when the service sent none) and the body, viewed as
UTF-8-decoded lines by `iter_lines` and as raw byte chunks by iteration. -/
structure Response where
  contentType : Option String
  lines : List (List Char)
  chunks : List (List Nat)

/-- What `invoke_agent_runtime` does with the response body. -/
inductive InvokeResult where
  | streamed (st : StreamState) (err : Option DecodeErr)
  | jsonDoc (r : Except JsonBranchErr Json)
  | raw (resp : Response)

/-- The body of `invoke_agent_runtime` after the call: dispatch on the
declared content-type and run the selected decoding strategy; any other
content-type leaves the response object untouched. -/
def invoke_agent_runtime (resp : Response) : InvokeResult :=
  match dispatch resp.contentType with
  | .eventStream =>
    let p := decodeStream resp.lines
    .streamed p.1 p.2
  | .jsonReassembly => .jsonDoc (jsonBranch resp.chunks)
  | .fallback => .raw resp

/-! ## Status polling (`deploy_to_agentcore.wait_for_status`) -/

/-- The terminal set `end_status` of `wait_for_status`. -/
def endStatus : List String := ["READY", "CREATE_FAILED", "DELETE_FAILED", "UPDATE_FAILED"]

/-- One run of the polling loop.  `statuses i` is the result of the `i`-th
status fetch; `fuel` bounds the number of loop iterations (the source loop is
unbounded; `none` means it has not terminated within `fuel` re-fetches).
Arguments: fuel, the status just fetched, fetches so far, time waited so far.
Each non-terminal status costs one `time.sleep(10)` before the next fetch. -/
def pollLoop (statuses : Nat → String) : Nat → String → Nat → Nat → Option (Nat × Nat × String)
  | 0, status, n, w => if status ∈ endStatus then some (n, w, status) else none
  | f + 1, status, n, w =>
    if status ∈ endStatus then some (n, w, status)
    else pollLoop statuses f (statuses n) (n + 1) (w + 10)

/-- The observable outcome of `wait_for_status`: how many fetches it made, the
total time spent sleeping, the final fetched status, and the value the
function returns to its caller. -/
structure PollResult where
  fetches : Nat
  waited : Nat
  finalStatus : String
  returned : Option String

/-- `wait_for_status`: fetch the status, then loop while it is not terminal,
sleeping 10 seconds before each re-fetch.  The source function body contains
no `return` statement, so the Python function returns `None`: `returned` is
always `none`. -/
def wait_for_status (statuses : Nat → String) (fuel : Nat) : Option PollResult :=
  (pollLoop statuses fuel (statuses 0) 1 0).map (fun r => ⟨r.1, r.2.1, r.2.2, none⟩)

/-! ## The `__main__` flow of `invoke_agent.py` -/

/-- One record returned by the directory listing (`list_agent_runtimes`). -/
structure AgentRuntime where
  agentRuntimeName : String
  agentRuntimeArn : String

/-- The observable effect of the `__main__` block: which agent ARN (if any)
was invoked, and what report (if any) was emitted for an empty listing. -/
structure MainTrace where
  invokedArn : Option String
  emptyReport : Option String

/-- The `__main__` flow: `if len(runtimes):` invoke with the first runtime's
ARN; the block has no `else` branch, so an empty listing produces neither an
invocation nor any report. -/
def mainFlow (runtimes : List AgentRuntime) : MainTrace :=
  match runtimes with
  | [] => ⟨none, none⟩
  | r :: _ => ⟨some r.agentRuntimeArn, none⟩

/-! ## Spec-side predicates used in the claim statements -/

/-- A JSON value carrying the complete
`event -> contentBlockDelta -> delta -> text` path down to a string `t`:
an object at every level, with each lookup (last-binding, as in a Python
dict) succeeding. -/
def hasTextPath (d : Json) (t : String) : Bool :=
  match d with
  | .obj fs =>
    match getLast fs "event" with
    | some (.obj es) =>
      match getLast es "contentBlockDelta" with
      | some (.obj cs) =>
        match getLast cs "delta" with
        | some (.obj ds) =>
          match getLast ds "text" with
          | some (.str s) => s == t
          | _ => false
        | _ => false
      | _ => false
    | _ => false
  | _ => false

/-- A well-formed event line: `data: `-prefixed, its payload parsing to a
JSON object with the complete text path, and the text non-empty. -/
def goodLine (l : List Char) (t : String) : Bool :=
  List.isPrefixOf dataMarker l &&
    (match jsonParse (l.drop 6) with
     | some d => hasTextPath d t && !(t == "")
     | none => false)

/-- A JSON object missing at least one key along the
`event -> contentBlockDelta -> delta -> text` path: the walk (through object
values) reaches a level where the next key is absent. -/
def missingPathKey (d : Json) : Bool :=
  match d with
  | .obj fs =>
    match getLast fs "event" with
    | none => true
    | some (.obj es) =>
      match getLast es "contentBlockDelta" with
      | none => true
      | some (.obj cs) =>
        match getLast cs "delta" with
        | none => true
        | some (.obj ds) => (getLast ds "text").isNone
        | some _ => false
      | some _ => false
    | some _ => false
  | _ => false

/-- A value on which the field walk will not call `.get`: an object, or any
falsy value (the walk stops at falsy values before calling `.get`). -/
def dictOrFalsy (j : Json) : Bool :=
  match j with
  | .obj _ => true
  | _ => !j.truthy

/-- The `contentBlockDelta` value will not make the walk raise: it is an
object whose `delta` value is in turn an object or falsy, or it is itself
falsy or a non-object the walk never calls `.get` on beyond this level. -/
def safeCbLevel (cb : Json) : Bool :=
  dictOrFalsy cb &&
    (match cb with
     | .obj cs => dictOrFalsy (getLastD cs "delta" (.str ""))
     | _ => true)

/-- The `event` value will not make the walk raise at any level below it. -/
def safeEvLevel (ev : Json) : Bool :=
  dictOrFalsy ev &&
    (match ev with
     | .obj es => safeCbLevel (getLastD es "contentBlockDelta" .null)
     | _ => true)

/-- A parsed payload on which the field walk of `extractFragment` cannot
raise: every value the walk would call `.get` on (the `event` value, the
`contentBlockDelta` value, the `delta` value) is an object or falsy. -/
def safeWalk (d : Json) : Bool :=
  match d with
  | .obj fs => safeEvLevel (getLastD fs "event" (.str ""))
  | _ => true

/-- Whether an `Except` computation succeeded (did not raise). -/
def exOk {ε α : Type} : Except ε α → Bool
  | .ok _ => true
  | .error _ => false

/-! ## Helper lemmas -/

theorem getLast_isEmpty_false {fs : List (String × Json)} {k : String} {v : Json}
    (h : getLast fs k = some v) : fs.isEmpty = false := by
  cases fs with
  | nil => simp [getLast] at h
  | cons a l => rfl

theorem isPrefixOf_ne_nil {l : List Char} (h : List.isPrefixOf dataMarker l = true) :
    l.isEmpty = false := by
  cases l with
  | nil => simp [dataMarker, List.isPrefixOf] at h
  | cons a l => rfl

theorem extractFragment_path (d : Json) (t : String) (hpath : hasTextPath d t = true)
    (ht : (t == "") = false) : extractFragment d = .ok (some (.str t)) := by
  cases d
  case obj fs =>
    rcases h1 : getLast fs "event" with _ | ev
    · simp [hasTextPath, h1] at hpath
    · cases ev
      case obj es =>
        rcases h2 : getLast es "contentBlockDelta" with _ | cb
        · simp [hasTextPath, h1, h2] at hpath
        · cases cb
          case obj cs =>
            rcases h3 : getLast cs "delta" with _ | dl
            · simp [hasTextPath, h1, h2, h3] at hpath
            · cases dl
              case obj ds =>
                rcases h4 : getLast ds "text" with _ | tx
                · simp [hasTextPath, h1, h2, h3, h4] at hpath
                · cases tx
                  case str s =>
                    have hst : s = t := by
                      simpa [hasTextPath, h1, h2, h3, h4] using hpath
                    subst hst
                    simp [extractFragment, walkEvent, walkDelta, walkText,
                      getLastD, h1, h2, h3, h4, Json.truthy,
                      getLast_isEmpty_false h2, getLast_isEmpty_false h3,
                      getLast_isEmpty_false h4, pyGet, ht, pure, Except.pure,
                      Bind.bind, Except.bind]
                  all_goals simp [hasTextPath, h1, h2, h3, h4] at hpath
              all_goals simp [hasTextPath, h1, h2, h3] at hpath
          all_goals simp [hasTextPath, h1, h2] at hpath
      all_goals simp [hasTextPath, h1] at hpath
  all_goals simp [hasTextPath] at hpath

theorem decodeLine_good (l : List Char) (t : String) (h : goodLine l t = true) :
    decodeLine l = .ok (some (.str t), some (l.drop 6)) := by
  unfold goodLine at h
  rw [Bool.and_eq_true] at h
  obtain ⟨hpre, hrest⟩ := h
  rcases hp : jsonParse (l.drop 6) with _ | d <;> rw [hp] at hrest
  · simp at hrest
  · rw [Bool.and_eq_true] at hrest
    obtain ⟨hpath, htb⟩ := hrest
    have ht : (t == "") = false := by
      cases hq : (t == "") <;> simp [hq] at htb ⊢
    simp [decodeLine, isPrefixOf_ne_nil hpre, hpre, hp,
      extractFragment_path d t hpath ht, Except.map]

theorem decodeStreamAux_good (lines : List (List Char)) (ts : List String)
    (h : List.Forall₂ (fun l t => goodLine l t = true) lines ts) :
    ∀ st : StreamState,
      decodeStreamAux lines st =
        (⟨st.fragments ++ ts.map Json.str,
          st.transcript ++ lines.map (fun l => l.drop 6)⟩, none) := by
  induction h with
  | nil => intro st; simp [decodeStreamAux]
  | cons h1 h2 ih =>
    intro st
    simp only [decodeStreamAux, decodeLine_good _ _ h1]
    rw [ih]
    simp

/-- C1: for every event-stream response consisting of `data: `-prefixed lines
whose payloads each parse to a JSON object with a complete
`event.contentBlockDelta.delta.text` path carrying a non-empty string, the
decoder emits exactly one fragment per line, in input order, each equal to the
corresponding text value, and finishes without error. -/
theorem C1_fragments_in_order (lines : List (List Char)) (ts : List String)
    (h : List.Forall₂ (fun l t => goodLine l t = true) lines ts) :
    decodeStream lines = (⟨ts.map Json.str, lines.map (fun l => l.drop 6)⟩, none) := by
  unfold decodeStream
  rw [decodeStreamAux_good lines ts h]
  simp

theorem C1_fragments_in_order_witness :
    decodeStream
        ["data: \x7b\"event\":\x7b\"contentBlockDelta\":\x7b\"delta\":\x7b\"text\":\"Hello\"\x7d\x7d\x7d\x7d".data,
         "data: \x7b\"event\":\x7b\"contentBlockDelta\":\x7b\"delta\":\x7b\"text\":\"World\"\x7d\x7d\x7d\x7d".data] =
      (⟨[Json.str "Hello", Json.str "World"],
        ["\x7b\"event\":\x7b\"contentBlockDelta\":\x7b\"delta\":\x7b\"text\":\"Hello\"\x7d\x7d\x7d\x7d".data,
         "\x7b\"event\":\x7b\"contentBlockDelta\":\x7b\"delta\":\x7b\"text\":\"World\"\x7d\x7d\x7d\x7d".data]⟩, none) :=
  C1_fragments_in_order _ ["Hello", "World"]
    (List.Forall₂.cons (by rfl) (List.Forall₂.cons (by rfl) List.Forall₂.nil))

theorem exOk_ok {ε α : Type} (a : α) : exOk (Except.ok a : Except ε α) = true := rfl

theorem exOk_error {ε α : Type} (e : ε) : exOk (Except.error e : Except ε α) = false := rfl

theorem exOk_map {ε α β : Type} (f : α → β) (x : Except ε α) :
    exOk (Except.map f x) = exOk x := by
  cases x <;> rfl

theorem exOk_walkText (dl : Json) : exOk (walkText dl) = dictOrFalsy dl := by
  cases dl with
  | null => rfl
  | bool b => cases b <;> rfl
  | num m e =>
    by_cases hm : m = 0
    · subst hm; rfl
    · simp [walkText, Json.truthy, pyGet, dictOrFalsy, hm, pure, Except.pure,
        Bind.bind, Except.bind, exOk_ok, exOk_error, beq_iff_eq]
  | str s =>
    by_cases hs : s = ""
    · subst hs; rfl
    · simp [walkText, Json.truthy, pyGet, dictOrFalsy, hs, pure, Except.pure,
        Bind.bind, Except.bind, exOk_ok, exOk_error, beq_iff_eq]
  | arr xs =>
    cases hx : xs.isEmpty <;>
      simp [walkText, Json.truthy, pyGet, dictOrFalsy, hx, pure, Except.pure,
        Bind.bind, Except.bind, exOk_ok, exOk_error]
  | obj fs =>
    cases hf : fs.isEmpty <;>
      simp [walkText, Json.truthy, pyGet, dictOrFalsy, hf, pure, Except.pure,
        Bind.bind, Except.bind, exOk_ok, exOk_error, apply_ite, ite_self]

theorem exOk_walkDelta (cb : Json) : exOk (walkDelta cb) = safeCbLevel cb := by
  cases cb with
  | null => rfl
  | bool b => cases b <;> rfl
  | num m e =>
    by_cases hm : m = 0
    · subst hm; rfl
    · simp [walkDelta, safeCbLevel, Json.truthy, pyGet, dictOrFalsy, hm, pure,
        Except.pure, Bind.bind, Except.bind, exOk_ok, exOk_error, beq_iff_eq]
  | str s =>
    by_cases hs : s = ""
    · subst hs; rfl
    · simp [walkDelta, safeCbLevel, Json.truthy, pyGet, dictOrFalsy, hs, pure,
        Except.pure, Bind.bind, Except.bind, exOk_ok, exOk_error, beq_iff_eq]
  | arr xs =>
    cases hx : xs.isEmpty <;>
      simp [walkDelta, safeCbLevel, Json.truthy, pyGet, dictOrFalsy, hx, pure,
        Except.pure, Bind.bind, Except.bind, exOk_ok, exOk_error]
  | obj cs =>
    cases hcs : cs.isEmpty
    · simp [walkDelta, safeCbLevel, Json.truthy, hcs, pyGet, dictOrFalsy, pure,
        Except.pure, Bind.bind, Except.bind, exOk_walkText]
    · have hnil : cs = [] := by simpa using hcs
      subst hnil
      rfl

theorem exOk_walkEvent (ev : Json) : exOk (walkEvent ev) = safeEvLevel ev := by
  cases ev with
  | null => rfl
  | bool b => cases b <;> rfl
  | num m e =>
    by_cases hm : m = 0
    · subst hm; rfl
    · simp [walkEvent, safeEvLevel, Json.truthy, pyGet, dictOrFalsy, hm, pure,
        Except.pure, Bind.bind, Except.bind, exOk_ok, exOk_error, beq_iff_eq]
  | str s =>
    by_cases hs : s = ""
    · subst hs; rfl
    · simp [walkEvent, safeEvLevel, Json.truthy, pyGet, dictOrFalsy, hs, pure,
        Except.pure, Bind.bind, Except.bind, exOk_ok, exOk_error, beq_iff_eq]
  | arr xs =>
    cases hx : xs.isEmpty <;>
      simp [walkEvent, safeEvLevel, Json.truthy, pyGet, dictOrFalsy, hx, pure,
        Except.pure, Bind.bind, Except.bind, exOk_ok, exOk_error]
  | obj es =>
    cases hes : es.isEmpty
    · simp [walkEvent, safeEvLevel, Json.truthy, hes, pyGet, dictOrFalsy, pure,
        Except.pure, Bind.bind, Except.bind, exOk_walkDelta]
    · have hnil : es = [] := by simpa using hes
      subst hnil
      rfl

theorem exOk_extractFragment (d : Json) : exOk (extractFragment d) = safeWalk d := by
  cases d <;>
    simp [extractFragment, safeWalk, exOk_walkEvent, exOk_ok, pure, Except.pure]

theorem extractFragment_missing (d : Json) (hm : missingPathKey d = true) :
    extractFragment d = .ok none := by
  cases d
  case obj fs =>
    rcases h1 : getLast fs "event" with _ | ev
    · simp [extractFragment, getLastD, h1, walkEvent, Json.truthy, pure, Except.pure]
    · cases ev
      case obj es =>
        rcases h2 : getLast es "contentBlockDelta" with _ | cb
        · cases hes : es.isEmpty <;>
            simp [extractFragment, getLastD, h1, h2, walkEvent, walkDelta, Json.truthy,
              hes, pyGet, pure, Except.pure, Bind.bind, Except.bind]
        · cases cb
          case obj cs =>
            rcases h3 : getLast cs "delta" with _ | dl
            · cases hcs : cs.isEmpty <;>
                simp [extractFragment, getLastD, h1, h2, h3, walkEvent, walkDelta,
                  walkText, Json.truthy, hcs, getLast_isEmpty_false h2, pyGet,
                  pure, Except.pure, Bind.bind, Except.bind]
            · cases dl
              case obj ds =>
                have h4 : getLast ds "text" = none := by
                  simpa [missingPathKey, h1, h2, h3, Option.isNone_iff_eq_none] using hm
                cases hds : ds.isEmpty <;>
                  simp [extractFragment, getLastD, h1, h2, h3, h4, walkEvent, walkDelta,
                    walkText, Json.truthy, hds, getLast_isEmpty_false h2,
                    getLast_isEmpty_false h3, pyGet, pure, Except.pure, Bind.bind,
                    Except.bind, apply_ite, ite_self]
              all_goals simp [missingPathKey, h1, h2, h3] at hm
          all_goals simp [missingPathKey, h1, h2] at hm
      all_goals simp [missingPathKey, h1] at hm
  all_goals simp [missingPathKey] at hm

theorem extractFragment_nonobj (d : Json) (hobj : d.isObj = false) :
    extractFragment d = .ok none := by
  cases d
  case obj fs => simp [Json.isObj] at hobj
  all_goals rfl

theorem decodeLine_ok_none (l : List Char) (d : Json)
    (hpre : List.isPrefixOf dataMarker l = true)
    (hp : jsonParse (l.drop 6) = some d)
    (hex : extractFragment d = .ok none) :
    decodeLine l = .ok (none, some (l.drop 6)) := by
  simp [decodeLine, isPrefixOf_ne_nil hpre, hpre, hp, hex, Except.map]

theorem decodeLine_parse_error (l : List Char)
    (hpre : List.isPrefixOf dataMarker l = true)
    (hp : jsonParse (l.drop 6) = none) :
    decodeLine l = .error (DecodeErr.jsonError (l.drop 6)) := by
  simp [decodeLine, isPrefixOf_ne_nil hpre, hpre, hp]

theorem decodeStreamAux_append_ok :
    ∀ (xs : List (List Char)) (st st' : StreamState) (ys : List (List Char)),
      decodeStreamAux xs st = (st', none) →
      decodeStreamAux (xs ++ ys) st = decodeStreamAux ys st' := by
  intro xs
  induction xs with
  | nil =>
    intro st st' ys h
    simp [decodeStreamAux] at h
    subst h
    rfl
  | cons l ls ih =>
    intro st st' ys h
    simp only [decodeStreamAux, List.cons_append] at h ⊢
    cases hd : decodeLine l with
    | error e => simp only [hd] at h; simp at h
    | ok p =>
      obtain ⟨frag, tr⟩ := p
      simp only [hd] at h ⊢
      exact ih _ _ _ h

/-- C4: for every `data: ` line whose payload is a valid JSON object missing a
key somewhere along the `event -> contentBlockDelta -> delta -> text` path,
the decoder emits no fragment for that line, appends the payload to the
transcript, and raises no error. -/
theorem C4_missing_key_skipped (l : List Char) (d : Json)
    (hpre : List.isPrefixOf dataMarker l = true)
    (hp : jsonParse (l.drop 6) = some d) (hm : missingPathKey d = true) :
    decodeLine l = .ok (none, some (l.drop 6)) :=
  decodeLine_ok_none l d hpre hp (extractFragment_missing d hm)

theorem C4_missing_key_skipped_witness :
    decodeLine "data: \x7b\"event\":\x7b\x7d\x7d".data =
      .ok (none, some ("data: \x7b\"event\":\x7b\x7d\x7d".data.drop 6)) :=
  C4_missing_key_skipped _ (Json.obj [("event", Json.obj [])]) (by rfl) (by rfl) (by rfl)

/-- C10: for every `data: ` line whose payload is valid JSON but not an
object, the decoder emits no fragment, raises no error, and still appends the
payload to the transcript. -/
theorem C10_nonobject_payload (l : List Char) (d : Json)
    (hpre : List.isPrefixOf dataMarker l = true)
    (hp : jsonParse (l.drop 6) = some d) (hobj : d.isObj = false) :
    decodeLine l = .ok (none, some (l.drop 6)) :=
  decodeLine_ok_none l d hpre hp (extractFragment_nonobj d hobj)

theorem C10_nonobject_payload_witness :
    decodeLine "data: [1, 2]".data =
      .ok (none, some ("data: [1, 2]".data.drop 6)) :=
  C10_nonobject_payload _ (Json.arr [Json.num 1 0, Json.num 2 0]) (by rfl) (by rfl) (by rfl)

/-- C3 (amended): a `data: `-prefixed line makes the decoder raise exactly
when its payload is not valid JSON or when the parsed payload's field walk
meets a truthy non-dict value; a JSON parse failure is propagated to the
caller as an error that leaves the state already accumulated for earlier
lines untouched and emits nothing for the failing line or any later line. -/
theorem C3_error_conditions :
    (∀ (pre : List (List Char)) (l : List Char) (rest : List (List Char)) (st0 : StreamState),
        decodeStream pre = (st0, none) →
        List.isPrefixOf dataMarker l = true →
        jsonParse (l.drop 6) = none →
        decodeStream (pre ++ l :: rest) = (st0, some (DecodeErr.jsonError (l.drop 6))))
    ∧ (∀ (l : List Char) (d : Json),
        List.isPrefixOf dataMarker l = true →
        jsonParse (l.drop 6) = some d →
        (exOk (decodeLine l) = false ↔ safeWalk d = false)) := by
  constructor
  · intro pre l rest st0 hpre hprefix hp
    unfold decodeStream at hpre ⊢
    rw [decodeStreamAux_append_ok pre _ st0 (l :: rest) hpre]
    simp [decodeStreamAux, decodeLine_parse_error l hprefix hp]
  · intro l d hprefix hp
    have hdl : decodeLine l =
        Except.map (fun frag => (frag, some (l.drop 6))) (extractFragment d) := by
      simp [decodeLine, isPrefixOf_ne_nil hprefix, hprefix, hp]
    rw [hdl, exOk_map, exOk_extractFragment]

theorem C3_error_conditions_witness :
    decodeStream
        (["data: \x7b\"a\": 1\x7d".data] ++
          "data: not-json".data :: ["data: \x7b\"a\": 2\x7d".data]) =
      (⟨[], ["\x7b\"a\": 1\x7d".data]⟩, some (DecodeErr.jsonError "not-json".data)) :=
  C3_error_conditions.1 ["data: \x7b\"a\": 1\x7d".data] "data: not-json".data
    ["data: \x7b\"a\": 2\x7d".data] ⟨[], ["\x7b\"a\": 1\x7d".data]⟩ (by rfl) (by rfl) (by rfl)

/-- C3 counterexample: the payload `{"event": 1}` is valid JSON, yet the
decoder raises (`event` is truthy but not a dict, so `.get` on it fails), so
decoding is not error-free on every line whose stripped remainder is valid
JSON. -/
theorem C3_counterexample :
    jsonParse ("data: \x7b\"event\": 1\x7d".data.drop 6) =
        some (Json.obj [("event", Json.num 1 0)]) ∧
    decodeLine "data: \x7b\"event\": 1\x7d".data = .error DecodeErr.attributeError :=
  ⟨rfl, rfl⟩

theorem decodeLine_transcript (l : List Char) (frag : Option Json) (tr : Option (List Char))
    (h : decodeLine l = .ok (frag, tr)) :
    tr = if List.isPrefixOf dataMarker l then some (l.drop 6) else none := by
  unfold decodeLine at h
  by_cases he : l.isEmpty
  · have hnil : l = [] := by simpa using he
    subst hnil
    simp [decodeLine] at h
    simp [h.2, dataMarker, List.isPrefixOf]
  · by_cases hd : List.isPrefixOf dataMarker l
    · simp only [he, hd, if_true, if_false, Bool.false_eq_true, ite_false, ite_true] at h
      rcases hp : jsonParse (l.drop 6) with _ | d <;> simp only [hp] at h
      · simp at h
      · cases hex : extractFragment d <;> simp only [hex, Except.map] at h
        · simp at h
        · simp at h
          simp [hd, h.2]
    · simp [he, hd] at h
      simp [hd, h.2]

theorem decodeStreamAux_transcript :
    ∀ (lines : List (List Char)) (st st' : StreamState),
      decodeStreamAux lines st = (st', none) →
      st'.transcript =
        st.transcript ++
          (lines.filter (fun l => List.isPrefixOf dataMarker l)).map (fun l => l.drop 6) := by
  intro lines
  induction lines with
  | nil =>
    intro st st' h
    simp [decodeStreamAux] at h
    subst h
    simp
  | cons l ls ih =>
    intro st st' h
    simp only [decodeStreamAux] at h
    cases hd : decodeLine l with
    | error e => simp only [hd] at h; simp at h
    | ok p =>
      obtain ⟨frag, tr⟩ := p
      simp only [hd] at h
      have htail := ih _ _ h
      have htr := decodeLine_transcript l frag tr hd
      by_cases hp : List.isPrefixOf dataMarker l
      · rw [hp] at htr
        simp only [if_true] at htr
        subst htr
        simp [htail, hp]
      · simp only [hp, if_false, Bool.false_eq_true, ite_false] at htr
        subst htr
        simp [htail, hp]

/-- C5 (amended): after an error-free event-stream decode, the transcript
consists exactly of the stripped payloads of the `data: `-prefixed lines, in
order; lines that do not start with `data: ` are dropped entirely, and even
for `data: ` lines the raw line (with its prefix) is not retained. -/
theorem C5_transcript_is_stripped_data_lines (lines : List (List Char)) (st' : StreamState)
    (h : decodeStream lines = (st', none)) :
    st'.transcript =
      (lines.filter (fun l => List.isPrefixOf dataMarker l)).map (fun l => l.drop 6) := by
  unfold decodeStream at h
  simpa using decodeStreamAux_transcript lines ⟨[], []⟩ st' h

theorem C5_transcript_is_stripped_data_lines_witness :
    (⟨[], ["\x7b\"a\": 1\x7d".data]⟩ : StreamState).transcript =
      ((["hello".data, "data: \x7b\"a\": 1\x7d".data].filter
          (fun l => List.isPrefixOf dataMarker l)).map (fun l => l.drop 6)) :=
  C5_transcript_is_stripped_data_lines
    ["hello".data, "data: \x7b\"a\": 1\x7d".data] ⟨[], ["\x7b\"a\": 1\x7d".data]⟩ (by rfl)

/-- C5 counterexample: on the stream `["hello", "data: {"a": 1}"]` the decode
succeeds but the transcript holds only the stripped payload of the `data: `
line: the non-`data:` line `"hello"` is not retained at all, and the raw
`data: ` line is not retained verbatim either. -/
theorem C5_counterexample :
    decodeStream ["hello".data, "data: \x7b\"a\": 1\x7d".data] =
      (⟨[], ["\x7b\"a\": 1\x7d".data]⟩, none) ∧
    ¬ ("hello".data ∈ (⟨[], ["\x7b\"a\": 1\x7d".data]⟩ : StreamState).transcript) ∧
    ¬ ("data: \x7b\"a\": 1\x7d".data ∈
        (⟨[], ["\x7b\"a\": 1\x7d".data]⟩ : StreamState).transcript) :=
  ⟨rfl, by decide, by decide⟩

theorem pollLoop_spec (statuses : Nat → String) :
    ∀ (fuel n m w' : Nat) (s : String),
      1 ≤ n →
      (∀ j, j + 1 < n → statuses j ∉ endStatus) →
      pollLoop statuses fuel (statuses (n - 1)) n (10 * (n - 1)) = some (m, w', s) →
      1 ≤ m ∧ s = statuses (m - 1) ∧ s ∈ endStatus ∧
        (∀ j, j + 1 < m → statuses j ∉ endStatus) ∧ w' = 10 * (m - 1) := by
  intro fuel
  induction fuel with
  | zero =>
    intro n m w' s hn hprev h
    by_cases hmem : statuses (n - 1) ∈ endStatus
    · simp [pollLoop, hmem] at h
      obtain ⟨rfl, rfl, rfl⟩ := h
      exact ⟨hn, rfl, hmem, hprev, rfl⟩
    · simp [pollLoop, hmem] at h
  | succ f ih =>
    intro n m w' s hn hprev h
    by_cases hmem : statuses (n - 1) ∈ endStatus
    · simp [pollLoop, hmem] at h
      obtain ⟨rfl, rfl, rfl⟩ := h
      exact ⟨hn, rfl, hmem, hprev, rfl⟩
    · simp only [pollLoop, hmem, if_false, ite_false] at h
      have harith : 10 * (n - 1) + 10 = 10 * ((n + 1) - 1) := by omega
      have hcur : statuses n = statuses ((n + 1) - 1) := by simp
      rw [harith, hcur] at h
      refine ih (n + 1) m w' s (by omega) ?_ h
      intro j hj
      by_cases hjn : j + 1 < n
      · exact hprev j hjn
      · have : j = n - 1 := by omega
        subst this
        exact hmem

/-- C7: the poller stops at the first fetch whose result is terminal, with no
waiting before or after a first fetch that is already terminal, waits exactly
10 time units between consecutive fetches (total wait `10 * (fetches - 1)`),
and on the status sequence `[CREATING, CREATING, READY]` performs exactly 3
fetches. -/
theorem C7_fixed_interval_polling :
    (∀ (statuses : Nat → String) (fuel : Nat), statuses 0 ∈ endStatus →
        wait_for_status statuses fuel = some ⟨1, 0, statuses 0, none⟩)
    ∧ (∀ (statuses : Nat → String) (fuel : Nat) (r : PollResult),
        wait_for_status statuses fuel = some r →
        1 ≤ r.fetches ∧ r.finalStatus = statuses (r.fetches - 1) ∧
          r.finalStatus ∈ endStatus ∧
          (∀ j, j + 1 < r.fetches → statuses j ∉ endStatus) ∧
          r.waited = 10 * (r.fetches - 1))
    ∧ wait_for_status (fun i => if i < 2 then "CREATING" else "READY") 10 =
        some ⟨3, 20, "READY", none⟩ := by
  refine ⟨?_, ?_, ?_⟩
  · intro statuses fuel hmem
    cases fuel <;> simp [wait_for_status, pollLoop, hmem]
  · intro statuses fuel r h
    unfold wait_for_status at h
    rcases hp : pollLoop statuses fuel (statuses 0) 1 0 with _ | trip <;> rw [hp] at h
    · simp at h
    · obtain ⟨m, w', s⟩ := trip
      simp [Option.map] at h
      have hspec := pollLoop_spec statuses fuel 1 m w' s (le_refl 1)
        (by intro j hj; omega) (by simpa using hp)
      rw [← h]
      exact hspec
  · rfl

theorem C7_fixed_interval_polling_witness :
    wait_for_status (fun _ => "CREATE_FAILED") 4 = some ⟨1, 0, "CREATE_FAILED", none⟩ :=
  C7_fixed_interval_polling.1 (fun _ => "CREATE_FAILED") 4 (by decide)

/-- C6 (amended): when the poller stops, the status just fetched is terminal,
but the Python function body contains no `return` statement, so the caller
receives `None` — the terminal `DeploymentStatus` value itself is not
returned. -/
theorem C6_returns_none (statuses : Nat → String) (fuel : Nat) (r : PollResult)
    (h : wait_for_status statuses fuel = some r) :
    r.returned = none ∧ r.finalStatus ∈ endStatus := by
  unfold wait_for_status at h
  rcases hp : pollLoop statuses fuel (statuses 0) 1 0 with _ | trip <;> rw [hp] at h
  · simp at h
  · obtain ⟨m, w', s⟩ := trip
    simp [Option.map] at h
    have hspec := pollLoop_spec statuses fuel 1 m w' s (le_refl 1)
      (by intro j hj; omega) (by simpa using hp)
    rw [← h]
    exact ⟨rfl, hspec.2.2.1⟩

theorem C6_returns_none_witness :
    (⟨1, 0, "READY", none⟩ : PollResult).returned = none ∧
    (⟨1, 0, "READY", none⟩ : PollResult).finalStatus ∈ endStatus :=
  C6_returns_none (fun _ => "READY") 3 ⟨1, 0, "READY", none⟩ (by rfl)

/-- C6 counterexample: with a first fetch already `READY`, the poller stops
with final status `READY` but its return value is `None`, not the terminal
status value — the claim that the terminal `DeploymentStatus` is returned to
the caller is false. -/
theorem C6_counterexample :
    wait_for_status (fun _ => "READY") 0 = some ⟨1, 0, "READY", none⟩ ∧
    (⟨1, 0, "READY", none⟩ : PollResult).returned ≠ some "READY" :=
  ⟨rfl, by simp⟩

/-- C8 (amended): with an empty directory listing, the `__main__` flow
attempts no invocation, but it also emits no report of any kind — the empty
case is silently skipped (the `if len(runtimes):` block has no `else`), not
signalled distinctly. -/
theorem C8_empty_listing_silent :
    mainFlow [] = ⟨none, none⟩ ∧
    (∀ (r : AgentRuntime) (rs : List AgentRuntime),
        mainFlow (r :: rs) = ⟨some r.agentRuntimeArn, none⟩) :=
  ⟨rfl, fun _ _ => rfl⟩

/-- C8 counterexample: on the empty listing the flow indeed performs no
invocation, but its report output is `none` — no "no available agent
identity" message is produced, contradicting the claimed distinct signal. -/
theorem C8_counterexample :
    (mainFlow []).invokedArn = none ∧ (mainFlow []).emptyReport = none :=
  ⟨rfl, rfl⟩

/-- C9: the event-stream strategy is selected exactly when the content-type
contains the event-stream marker as a substring; the JSON strategy is
selected exactly when no marker is contained and the content-type equals
`application/json` exactly (a parameter suffix defeats it); any other
content-type leaves the response object unmodified. -/
theorem C9_content_type_dispatch :
    (∀ ct : Option String,
        (dispatch ct = Strategy.eventStream ↔
          containsSub eventStreamMarker (ct.getD "").data = true))
    ∧ (∀ ct : Option String,
        (dispatch ct = Strategy.jsonReassembly ↔
          (containsSub eventStreamMarker (ct.getD "").data = false ∧
            ct = some "application/json")))
    ∧ (∀ resp : Response,
        containsSub eventStreamMarker (resp.contentType.getD "").data = false →
        resp.contentType ≠ some "application/json" →
        invoke_agent_runtime resp = InvokeResult.raw resp)
    ∧ dispatch (some "application/json; charset=utf-8") = Strategy.fallback := by
  refine ⟨?_, ?_, ?_, ?_⟩
  · intro ct
    cases hc : containsSub eventStreamMarker (ct.getD "").data
    · by_cases he : ct = some "application/json"
      · subst he; decide
      · simp [dispatch, hc, he]
    · simp [dispatch, hc]
  · intro ct
    cases hc : containsSub eventStreamMarker (ct.getD "").data
    · by_cases he : ct = some "application/json"
      · subst he; decide
      · simp [dispatch, hc, he]
    · simp [dispatch, hc]
  · intro resp hc he
    simp [invoke_agent_runtime, dispatch, hc, he]
  · rfl

theorem C9_content_type_dispatch_witness :
    dispatch (some "text/event-stream; charset=utf-8") = Strategy.eventStream ∧
    invoke_agent_runtime ⟨some "video/mp4", [], []⟩ =
      InvokeResult.raw ⟨some "video/mp4", [], []⟩ :=
  ⟨(C9_content_type_dispatch.1 (some "text/event-stream; charset=utf-8")).mpr (by rfl),
   C9_content_type_dispatch.2.2.1 ⟨some "video/mp4", [], []⟩ (by rfl) (by decide)⟩
theorem utf8SeqLen_pos {b0 n : Nat} (h : utf8SeqLen b0 = some n) : 1 ≤ n := by
  unfold utf8SeqLen at h
  split_ifs at h <;> simp_all <;> omega

theorem utf8Step_append {a t : List Nat} {cp : Nat} {r : List Nat}
    (h : utf8Step a = some (cp, r)) : utf8Step (a ++ t) = some (cp, r ++ t) := by
  cases a with
  | nil => simp [utf8Step] at h
  | cons b0 bs =>
    unfold utf8Step at h ⊢
    rcases hl : utf8SeqLen b0 with _ | n <;> simp only [List.cons_append, hl] at h ⊢
    · simp at h
    · by_cases hn : n ≤ (b0 :: bs).length
      · rw [if_pos hn] at h
        have hn' : n ≤ (b0 :: (bs ++ t)).length := by
          simp at hn ⊢
          omega
        rw [if_pos hn']
        have htake : (b0 :: (bs ++ t)).take n = (b0 :: bs).take n := by
          have := @List.take_append_of_le_length Nat (b0 :: bs) t n hn
          simpa using this
        have hdrop : (b0 :: (bs ++ t)).drop n = (b0 :: bs).drop n ++ t := by
          have := @List.drop_append_of_le_length Nat (b0 :: bs) t n hn
          simpa using this
        rw [htake, hdrop]
        rcases hs : utf8DecodeSeq ((b0 :: bs).take n) with _ | cp' <;> rw [hs] at h
        · simp at h
        · simp at h
          simp [h.1, h.2]
      · rw [if_neg hn] at h
        simp at h

theorem utf8Step_shrink {a : List Nat} {cp : Nat} {r : List Nat}
    (h : utf8Step a = some (cp, r)) : r.length < a.length := by
  cases a with
  | nil => simp [utf8Step] at h
  | cons b0 bs =>
    unfold utf8Step at h
    rcases hl : utf8SeqLen b0 with _ | n <;> simp only [hl] at h
    · simp at h
    · split_ifs at h with hn
      rcases hs : utf8DecodeSeq ((b0 :: bs).take n) with _ | cp' <;> simp only [hs] at h
      · simp at h
      · simp at h
        have hpos := utf8SeqLen_pos hl
        rw [← h.2]
        simp
        omega

theorem utf8DecodeAux_fuel :
    ∀ (f : Nat) (bs : List Nat), bs.length ≤ f → utf8DecodeAux f bs = utf8Decode bs := by
  intro f
  induction f using Nat.strong_induction_on with
  | _ f ih =>
    intro bs hlen
    cases bs with
    | nil => cases f <;> rfl
    | cons b bs' =>
      cases f with
      | zero => simp at hlen
      | succ g =>
        unfold utf8Decode
        simp only [List.length_cons, utf8DecodeAux]
        rcases hs : utf8Step (b :: bs') with _ | ⟨cp, r⟩ <;> simp only [hs]
        have hr := utf8Step_shrink hs
        simp only [List.length_cons] at hr hlen
        rw [ih g (by omega) r (by omega), ih bs'.length (by omega) r (by omega)]

theorem utf8DecodeAux_append :
    ∀ (f : Nat) (a t : List Nat) (ca : List Char),
      utf8DecodeAux f a = some ca →
      utf8Decode (a ++ t) = (utf8Decode t).map (fun s => ca ++ s) := by
  intro f
  induction f with
  | zero =>
    intro a t ca h
    cases a with
    | nil =>
      simp [utf8DecodeAux] at h
      subst h
      simp only [List.nil_append]
      cases htd : utf8Decode t <;> simp [htd]
    | cons b bs => simp [utf8DecodeAux] at h
  | succ f ih =>
    intro a t ca h
    cases a with
    | nil =>
      simp [utf8DecodeAux] at h
      subst h
      simp only [List.nil_append]
      cases htd : utf8Decode t <;> simp [htd]
    | cons b bs =>
      simp only [utf8DecodeAux] at h
      rcases hs : utf8Step (b :: bs) with _ | ⟨cp, r⟩ <;> simp only [hs] at h
      · simp at h
      · rcases ha : utf8DecodeAux f r with _ | cr <;> rw [ha] at h
        · simp at h
        · simp at h
          subst h
          have hstep := @utf8Step_append (b :: bs) t cp r hs
          have hL : utf8Decode ((b :: bs) ++ t) =
              utf8DecodeAux ((b :: bs) ++ t).length ((b :: bs) ++ t) := rfl
          rw [hL]
          simp only [List.cons_append] at hstep ⊢
          simp only [List.length_cons, utf8DecodeAux, hstep]
          have hr := utf8Step_shrink hs
          simp only [List.length_cons] at hr
          rw [utf8DecodeAux_fuel (bs ++ t).length (r ++ t) (by simp; omega)]
          rw [ih r t cr ha]
          cases htd : utf8Decode t <;> simp [htd]

theorem decodeChunks_flatten :
    ∀ (chunks : List (List Nat)) (parts : List (List Char)),
      decodeChunks chunks = some parts →
      utf8Decode chunks.flatten = some parts.flatten := by
  intro chunks
  induction chunks with
  | nil =>
    intro parts h
    simp [decodeChunks] at h
    subst h
    rfl
  | cons c cs ih =>
    intro parts h
    simp only [decodeChunks] at h
    rcases hc : utf8Decode c with _ | p <;> rw [hc] at h
    · simp at h
    · rcases hcs : decodeChunks cs with _ | ps <;> rw [hcs] at h
      · simp at h
      · simp at h
        subst h
        simp only [List.flatten_cons]
        rw [utf8DecodeAux_append c.length c cs.flatten p
          (by simpa [utf8Decode] using hc)]
        rw [ih ps hcs]
        rfl

theorem decodeChunks_of_valid :
    ∀ chunks : List (List Nat), (∀ c ∈ chunks, (utf8Decode c).isSome = true) →
      ∃ parts, decodeChunks chunks = some parts := by
  intro chunks
  induction chunks with
  | nil => intro _; exact ⟨[], rfl⟩
  | cons c cs ih =>
    intro h
    rcases ho : utf8Decode c with _ | p
    · have hc := h c (by simp)
      rw [ho] at hc
      simp at hc
    · obtain ⟨ps, hps⟩ := ih (fun x hx => h x (by simp [hx]))
      exact ⟨p :: ps, by simp [decodeChunks, ho, hps]⟩

/-- C2 (amended): when every chunk is individually valid UTF-8 (all chunk
boundaries fall on character boundaries), the chunk-wise decoding of the JSON
branch agrees exactly with the one-step reference decoding that concatenates
all bytes first — such chunkings never affect the result.  (A boundary inside
a multi-byte character instead fails, see the counterexample.) -/
theorem C2_chunkwise_eq_onestep (chunks : List (List Nat))
    (h : ∀ c ∈ chunks, (utf8Decode c).isSome = true) :
    jsonBranch chunks = jsonOneStep chunks.flatten := by
  obtain ⟨parts, hparts⟩ := decodeChunks_of_valid chunks h
  have hflat := decodeChunks_flatten chunks parts hparts
  simp only [jsonBranch, jsonOneStep, hparts, hflat]

theorem C2_chunkwise_eq_onestep_witness :
    jsonBranch [[34, 195, 169], [34]] = jsonOneStep (List.flatten [[34, 195, 169], [34]]) :=
  C2_chunkwise_eq_onestep [[34, 195, 169], [34]] (by decide)

/-- C2 counterexample: splitting the JSON body `"é"` (bytes `22 C3 A9 22`)
between the two bytes of `é` makes the chunk-wise decode raise a
`UnicodeDecodeError`, even though the concatenation of the chunks is valid
JSON and the one-step decode succeeds — chunk boundaries do affect the
result. -/
theorem C2_counterexample :
    jsonBranch [[34, 195], [169, 34]] = .error JsonBranchErr.unicodeDecodeError ∧
    jsonOneStep (List.flatten [[34, 195], [169, 34]]) = .ok (Json.str "é") :=
  ⟨rfl, rfl⟩
